import Mathlib

/-!
Shallow embedding of `warp/fem/geometry/partition.py`: geometry partitions
(Whole, Linear, Explicit) with their side-classification engine, together
with proofs of the specification claims.
-/

set_option linter.unusedVariables false

/-- Modelled from the spec: the NULL element sentinel from `warp.fem.types`
(`NULL_ELEMENT_INDEX`), the value returned by index mappings to signal
"not in this partition". The module itself is not part of the sources;
the spec only requires a distinguished sentinel outside the valid
(non-negative) index range. -/
def NULL_ELEMENT_INDEX : Int := -1

/-- Modelled from the spec: the external `Geometry` collaborator (not part of
the sources). Per the spec it exposes `cell_count()`, `side_count()`,
`boundary_side_count()`, `side_inner_cell_index(side)`,
`side_outer_cell_index(side)` and `boundary_side_index(i)`. Side adjacency
and the boundary-side list are stored as lists of global indices. -/
structure Geometry where
  cell_count : Nat
  side_inner : List Nat
  side_outer : List Nat
  boundary_sides : List Nat
deriving DecidableEq, Repr

/-- Modelled from the spec: `Geometry.side_count()`. -/
def Geometry.side_count (g : Geometry) : Nat := g.side_inner.length

/-- Modelled from the spec: `Geometry.side_inner_cell_index(side)`. -/
def Geometry.side_inner_cell_index (g : Geometry) (side : Nat) : Nat :=
  g.side_inner.getD side 0

/-- Modelled from the spec: `Geometry.side_outer_cell_index(side)`. -/
def Geometry.side_outer_cell_index (g : Geometry) (side : Nat) : Nat :=
  g.side_outer.getD side 0

/-- Modelled from the spec: `Geometry.boundary_side_count()`. -/
def Geometry.boundary_side_count (g : Geometry) : Nat := g.boundary_sides.length

/-- Modelled from the spec: `Geometry.boundary_side_index(i)`, mapping the
i-th geometric boundary side to its global side index. -/
def Geometry.boundary_side_index (g : Geometry) (i : Nat) : Nat :=
  g.boundary_sides.getD i 0

/-- Well-formedness of the external geometry: inner and outer adjacency lists
have the same length and every adjacent cell index is a valid cell. -/
def Geometry.WF (g : Geometry) : Prop :=
  g.side_outer.length = g.side_inner.length ∧
  (∀ c ∈ g.side_inner, c < g.cell_count) ∧
  (∀ c ∈ g.side_outer, c < g.cell_count)

instance (g : Geometry) : Decidable g.WF := by
  unfold Geometry.WF; infer_instance

/-- Modelled from the spec: the stream-compaction primitive
`masked_indices` (from `warp.fem.utils`, not part of the sources): the
ascending list of positions at which a 0/1 mask is nonzero. -/
def maskedIndices : List Nat → List Nat
  | [] => []
  | m :: ms =>
      if m = 0 then (maskedIndices ms).map (fun i => i + 1)
      else 0 :: (maskedIndices ms).map (fun i => i + 1)

/-- Modelled from the spec: the second output of `masked_indices`, the
inverse map: for a selected position its local index (its rank among the
selected positions), and a `-1` sentinel for unselected positions. -/
def maskedOffset (mask : List Nat) (g : Nat) : Int :=
  if mask.getD g 0 ≠ 0 then ((mask.take g).countP (fun m => m != 0) : Int) else -1

/-- Modelled from the spec: the inverse map materialized as a length-N array,
as `masked_indices` returns it. -/
def maskedOffsetsList (mask : List Nat) : List Int :=
  (List.range mask.length).map (maskedOffset mask)

/-! ### WholeGeometryPartition — trivial (NOP) partition -/

/-- `WholeGeometryPartition`: holds only the reference to its geometry. -/
structure WholeGeometryPartition where
  geometry : Geometry
deriving DecidableEq, Repr

/-- `WholeGeometryPartition._identity_element_index`: returns its index
argument unchanged (the argument struct is ignored in the source). -/
def WholeGeometryPartition._identity_element_index (idx : Int) : Int := idx

/-- `cell_index` as bound in `WholeGeometryPartition.__init__`. -/
def WholeGeometryPartition.cell_index (p : WholeGeometryPartition) (idx : Int) : Int :=
  WholeGeometryPartition._identity_element_index idx

/-- `partition_cell_index` as bound in `WholeGeometryPartition.__init__`. -/
def WholeGeometryPartition.partition_cell_index (p : WholeGeometryPartition) (idx : Int) : Int :=
  WholeGeometryPartition._identity_element_index idx

/-- `side_index` as bound in `WholeGeometryPartition.__init__`. -/
def WholeGeometryPartition.side_index (p : WholeGeometryPartition) (idx : Int) : Int :=
  WholeGeometryPartition._identity_element_index idx

/-- `boundary_side_index` as bound in `WholeGeometryPartition.__init__`:
it is the geometry's `boundary_side_index`, not the identity. -/
def WholeGeometryPartition.boundary_side_index (p : WholeGeometryPartition) (i : Nat) : Nat :=
  p.geometry.boundary_side_index i

/-- `frontier_side_index` as bound in `WholeGeometryPartition.__init__`. -/
def WholeGeometryPartition.frontier_side_index (p : WholeGeometryPartition) (idx : Int) : Int :=
  WholeGeometryPartition._identity_element_index idx

/-- `WholeGeometryPartition.cell_count`. -/
def WholeGeometryPartition.cell_count (p : WholeGeometryPartition) : Nat :=
  p.geometry.cell_count

/-- `WholeGeometryPartition.side_count`. -/
def WholeGeometryPartition.side_count (p : WholeGeometryPartition) : Nat :=
  p.geometry.side_count

/-- `WholeGeometryPartition.boundary_side_count`. -/
def WholeGeometryPartition.boundary_side_count (p : WholeGeometryPartition) : Nat :=
  p.geometry.boundary_side_count

/-- `WholeGeometryPartition.frontier_side_count`: literally `return 0`. -/
def WholeGeometryPartition.frontier_side_count (p : WholeGeometryPartition) : Nat := 0

/-- `WholeGeometryPartition.__eq__`: `isinstance(other, WholeGeometryPartition)
and self.geometry == other.geometry`. In the typed embedding both operands
are already `WholeGeometryPartition`, so only the geometry comparison
remains (geometry equality is structural equality of the `Geometry` value). -/
def WholeGeometryPartition.eq (p other : WholeGeometryPartition) : Bool :=
  p.geometry == other.geometry

/-! ### CellBasedGeometryPartition — shared side-classification engine

`compute_side_indices_from_cells` launches `count_side_fn` once per side,
writing three 0/1 masks that are then compacted by `masked_indices`. The
per-side body is embedded as three pure mask-producing functions over
`List.range (side_count)`, parameterized by the injected cell-inclusion
predicate applied to global cell indices. -/

/-- `count_side_fn`, partition-side mask slot: set to 1 iff the inner
neighbor cell is in the partition (masks start out as `wp.zeros`). -/
def partitionSideMask (geo : Geometry) (incl : Nat → Bool) : List Nat :=
  (List.range geo.side_count).map (fun side_index =>
    if incl (geo.side_inner_cell_index side_index) then 1 else 0)

/-- `count_side_fn`, boundary mask slot: inside the `inner_in` branch, set to
1 iff the inner and outer cell indices coincide. -/
def boundarySideMask (geo : Geometry) (incl : Nat → Bool) : List Nat :=
  (List.range geo.side_count).map (fun side_index =>
    if incl (geo.side_inner_cell_index side_index) then
      (if geo.side_inner_cell_index side_index = geo.side_outer_cell_index side_index
       then 1 else 0)
    else 0)

/-- `count_side_fn`, frontier mask slot: set to 1 iff exactly one of the two
neighbor cells is in the partition (`inner_in != outer_in`). -/
def frontierSideMask (geo : Geometry) (incl : Nat → Bool) : List Nat :=
  (List.range geo.side_count).map (fun side_index =>
    if incl (geo.side_inner_cell_index side_index)
       != incl (geo.side_outer_cell_index side_index) then 1 else 0)

/-- `self._partition_side_indices` as computed by
`compute_side_indices_from_cells`. -/
def CellBasedGeometryPartition.partition_side_indices
    (geo : Geometry) (incl : Nat → Bool) : List Nat :=
  maskedIndices (partitionSideMask geo incl)

/-- `self._boundary_side_indices` as computed by
`compute_side_indices_from_cells`. -/
def CellBasedGeometryPartition.boundary_side_indices
    (geo : Geometry) (incl : Nat → Bool) : List Nat :=
  maskedIndices (boundarySideMask geo incl)

/-- `self._frontier_side_indices` as computed by
`compute_side_indices_from_cells`. -/
def CellBasedGeometryPartition.frontier_side_indices
    (geo : Geometry) (incl : Nat → Bool) : List Nat :=
  maskedIndices (frontierSideMask geo incl)

/-! ### LinearGeometryPartition — contiguous cell-range strategy -/

/-- `LinearGeometryPartition.__init__`, range computation:
`cells_per_partition = (total_cell_count + partition_count - 1) // partition_count`. -/
def cellsPerPartition (total_cell_count partition_count : Nat) : Nat :=
  (total_cell_count + partition_count - 1) / partition_count

/-- `self.cell_begin = cells_per_partition * partition_rank`. -/
def linearCellBegin (total_cell_count partition_count partition_rank : Nat) : Nat :=
  cellsPerPartition total_cell_count partition_count * partition_rank

/-- `self.cell_end = min(self.cell_begin + cells_per_partition, total_cell_count)`. -/
def linearCellEnd (total_cell_count partition_count partition_rank : Nat) : Nat :=
  min (linearCellBegin total_cell_count partition_count partition_rank
        + cellsPerPartition total_cell_count partition_count)
      total_cell_count

/-- `LinearGeometryPartition`: the cell-mapping state is the
`(cell_begin, cell_end)` range computed at construction. -/
structure LinearGeometryPartition where
  cell_begin : Nat
  cell_end : Nat
deriving DecidableEq, Repr

/-- `LinearGeometryPartition.__init__` for a geometry, rank and count. -/
def LinearGeometryPartition.ofRank
    (geometry : Geometry) (partition_rank partition_count : Nat) :
    LinearGeometryPartition :=
  ⟨linearCellBegin geometry.cell_count partition_count partition_rank,
   linearCellEnd geometry.cell_count partition_count partition_rank⟩

/-- `LinearGeometryPartition.cell_count`: `cell_end - cell_begin`, a Python
`int` subtraction that can go negative, hence `Int`-valued. -/
def LinearGeometryPartition.cell_count (p : LinearGeometryPartition) : Int :=
  (p.cell_end : Int) - (p.cell_begin : Int)

/-- `LinearGeometryPartition.CellArg`: device-view of the range. -/
structure LinearGeometryPartition.CellArg where
  cell_begin : Int
  cell_end : Int
deriving DecidableEq, Repr

/-- `LinearGeometryPartition.cell_arg_value`. -/
def LinearGeometryPartition.cell_arg_value (p : LinearGeometryPartition) :
    LinearGeometryPartition.CellArg :=
  ⟨(p.cell_begin : Int), (p.cell_end : Int)⟩

/-- `LinearGeometryPartition.cell_index`: `args.cell_begin + partition_cell_index`
(no bound check). -/
def LinearGeometryPartition.cell_index
    (args : LinearGeometryPartition.CellArg) (partition_cell_index : Int) : Int :=
  args.cell_begin + partition_cell_index

/-- `LinearGeometryPartition.partition_cell_index`: NULL if
`cell_index > args.cell_end` (note: strictly greater) or if
`cell_index - args.cell_begin < 0`; otherwise `cell_index - args.cell_begin`. -/
def LinearGeometryPartition.partition_cell_index
    (args : LinearGeometryPartition.CellArg) (cell_index : Int) : Int :=
  if cell_index > args.cell_end then NULL_ELEMENT_INDEX
  else
    let partition_cell_index := cell_index - args.cell_begin
    if partition_cell_index < 0 then NULL_ELEMENT_INDEX
    else partition_cell_index

/-- `LinearGeometryPartition._cell_inclusion_test`:
`cell_index >= arg.cell_begin and cell_index < arg.cell_end`. -/
def LinearGeometryPartition._cell_inclusion_test
    (arg : LinearGeometryPartition.CellArg) (cell_index : Int) : Bool :=
  cell_index ≥ arg.cell_begin && cell_index < arg.cell_end

/-! ### ExplicitGeometryPartition — mask-driven strategy -/

/-- `ExplicitGeometryPartition`: stores the geometry and the caller-supplied
0/1 cell mask of length `geometry.cell_count()`. -/
structure ExplicitGeometryPartition where
  geometry : Geometry
  cell_mask : List Nat
deriving DecidableEq, Repr

/-- `self._cells` from `__init__`: first output of `masked_indices(cell_mask)`. -/
def ExplicitGeometryPartition.cells (p : ExplicitGeometryPartition) : List Nat :=
  maskedIndices p.cell_mask

/-- `self._partition_cells` from `__init__`: second output of
`masked_indices(cell_mask)`. -/
def ExplicitGeometryPartition.partition_cells (p : ExplicitGeometryPartition) : List Int :=
  maskedOffsetsList p.cell_mask

/-- `ExplicitGeometryPartition.cell_count`: `self._cells.shape[0]`. -/
def ExplicitGeometryPartition.cell_count (p : ExplicitGeometryPartition) : Nat :=
  p.cells.length

/-- `ExplicitGeometryPartition._cell_inclusion_test`: `mask[cell_index] > 0`. -/
def ExplicitGeometryPartition._cell_inclusion_test
    (mask : List Nat) (cell_index : Nat) : Bool :=
  mask.getD cell_index 0 > 0

/-- `ExplicitGeometryPartition.CellArg`: device-views of the two compacted
arrays. -/
structure ExplicitGeometryPartition.CellArg where
  cell_index : List Nat
  partition_cell_index : List Int
deriving DecidableEq, Repr

/-- `ExplicitGeometryPartition.cell_arg_value`. -/
def ExplicitGeometryPartition.cell_arg_value (p : ExplicitGeometryPartition) :
    ExplicitGeometryPartition.CellArg :=
  ⟨p.cells, p.partition_cells⟩

/-- `ExplicitGeometryPartition.cell_index`: `args.cell_index[partition_cell_index]`
(unchecked array read; out-of-range reads are undefined in the source). -/
def ExplicitGeometryPartition.cell_index
    (args : ExplicitGeometryPartition.CellArg) (partition_cell_index : Nat) : Nat :=
  args.cell_index.getD partition_cell_index 0

/-- `ExplicitGeometryPartition.partition_cell_index`:
`args.partition_cell_index[cell_index]` (unchecked array read). -/
def ExplicitGeometryPartition.partition_cell_index
    (args : ExplicitGeometryPartition.CellArg) (cell_index : Nat) : Int :=
  args.partition_cell_index.getD cell_index (-1)

/-- `frontier_side_count` of an Explicit partition: length of the frontier
index array built by `compute_side_indices_from_cells` with
`_cell_inclusion_test` over the cell mask. -/
def ExplicitGeometryPartition.frontier_side_count (p : ExplicitGeometryPartition) : Nat :=
  (CellBasedGeometryPartition.frontier_side_indices p.geometry
    (fun c => ExplicitGeometryPartition._cell_inclusion_test p.cell_mask c)).length

/-! ### Concrete example geometry

A 1-D chain of 4 cells (0-1-2-3) with 3 interior sides and 2 open-end
sides, the concrete scenario of the spec: side 0 is the left open end
(inner = outer = 0), sides 1..3 join cells (0,1), (1,2), (2,3), and side 4
is the right open end (inner = outer = 3). -/

/-- The 4-cell chain geometry used as a concrete witness input. -/
def chainGeometry : Geometry :=
  { cell_count := 4
    side_inner := [0, 0, 1, 2, 3]
    side_outer := [0, 1, 2, 3, 3]
    boundary_sides := [0, 4] }

/-! ### Lemmas about the stream-compaction primitive -/

/-- Reading a mapped range at an in-bounds position yields the function value. -/
theorem getD_map_range {α : Type} (f : Nat → α) (d : α) {n s : Nat} (h : s < n) :
    ((List.range n).map f).getD s d = f s := by
  rw [List.getD_eq_getElem _ _ (by simpa using h)]
  simp

/-- Reading a successor-mapped list at an in-bounds position. -/
theorem getD_map_succ (l : List Nat) (i : Nat) (h : i < l.length) :
    (l.map (fun x => x + 1)).getD i 0 = l.getD i 0 + 1 := by
  rw [List.getD_eq_getElem _ _ (by simpa using h), List.getD_eq_getElem _ _ h]
  simp

/-- A position whose mask entry reads nonzero is within the mask. -/
theorem lt_length_of_getD_ne (mask : List Nat) (g : Nat) (h : mask.getD g 0 ≠ 0) :
    g < mask.length := by
  by_contra hg
  exact h (List.getD_eq_default _ _ (Nat.le_of_not_lt hg))

/-- The compacted index list has one entry per nonzero mask slot. -/
theorem maskedIndices_length (mask : List Nat) :
    (maskedIndices mask).length = mask.countP (fun m => m != 0) := by
  induction mask with
  | nil => simp [maskedIndices]
  | cons m ms ih =>
    by_cases hm : m = 0 <;> simp [maskedIndices, hm, List.countP_cons, ih]

/-- Membership in the compacted index list characterizes nonzero mask slots. -/
theorem mem_maskedIndices (mask : List Nat) (s : Nat) :
    s ∈ maskedIndices mask ↔ s < mask.length ∧ mask.getD s 0 ≠ 0 := by
  induction mask generalizing s with
  | nil => simp [maskedIndices]
  | cons m ms ih =>
    cases s with
    | zero => by_cases hm : m = 0 <;> simp [maskedIndices, hm]
    | succ t =>
      by_cases hm : m = 0 <;>
        simp [maskedIndices, hm, ih, Nat.succ_lt_succ_iff]

/-- The i-th compacted index points at a nonzero mask slot and has exactly i
nonzero slots before it (so the inverse map sends it back to i). -/
theorem maskedIndices_getD_spec (mask : List Nat) (i : Nat)
    (h : i < (maskedIndices mask).length) :
    mask.getD ((maskedIndices mask).getD i 0) 0 ≠ 0 ∧
    (mask.take ((maskedIndices mask).getD i 0)).countP (fun m => m != 0) = i := by
  induction mask generalizing i with
  | nil => simp [maskedIndices] at h
  | cons m ms ih =>
    by_cases hm : m = 0
    · subst hm
      simp only [maskedIndices, reduceIte] at h ⊢
      have hlen : i < (maskedIndices ms).length := by simpa using h
      rw [getD_map_succ _ _ hlen]
      rcases ih i hlen with ⟨h1, h2⟩
      refine ⟨by simpa using h1, ?_⟩
      rw [List.take_succ_cons, List.countP_cons, h2]
      simp
    · simp only [maskedIndices, if_neg hm] at h ⊢
      cases i with
      | zero => simp [hm]
      | succ t =>
        have hlen : t < (maskedIndices ms).length := by simpa using h
        rw [List.getD_cons_succ, getD_map_succ _ _ hlen]
        rcases ih t hlen with ⟨h1, h2⟩
        refine ⟨by simpa using h1, ?_⟩
        rw [List.take_succ_cons, List.countP_cons, h2]
        simp [hm]

/-- Reading the materialized inverse array at an in-bounds position agrees
with the inverse map. -/
theorem maskedOffsetsList_getD (mask : List Nat) (g : Nat) (h : g < mask.length) :
    (maskedOffsetsList mask).getD g (-1) = maskedOffset mask g := by
  unfold maskedOffsetsList
  exact getD_map_range _ _ h

/-- Compacting an all-ones mask selects every position. -/
theorem maskedIndices_replicate_one_length (n : Nat) :
    (maskedIndices (List.replicate n 1)).length = n := by
  induction n with
  | zero => simp [maskedIndices]
  | succ k ih => rw [List.replicate_succ]; simp [maskedIndices, ih]

/-! ### Claim theorems -/

/-- C9: For every geometry, `WholeGeometryPartition.frontier_side_count()`
returns 0. -/
theorem C9_whole_frontier_side_count_zero (p : WholeGeometryPartition) :
    p.frontier_side_count = 0 := rfl

/-- C8: Two `WholeGeometryPartition` instances compare equal exactly when
their underlying geometries are equal, regardless of which instance was
constructed first (value equality, not identity). -/
theorem C8_whole_eq_iff_geometry_eq (g1 g2 : Geometry) :
    (WholeGeometryPartition.mk g1).eq (WholeGeometryPartition.mk g2) = true ↔ g1 = g2 := by
  simp [WholeGeometryPartition.eq]

/-- C2 counterexample: on the 4-cell chain geometry, the Whole partition's
`boundary_side_index` maps boundary side 1 to global side 4, not to 1 — it
is not the identity, refuting the claim that all five mappings are. -/
theorem C2_counterexample :
    (WholeGeometryPartition.mk chainGeometry).boundary_side_index 1 ≠ 1 := by
  decide

/-- C2 (amended): for every `WholeGeometryPartition`, `cell_index`,
`partition_cell_index`, `side_index` and `frontier_side_index` are the
identity on their index argument, while `boundary_side_index` is the
geometry's `boundary_side_index` (generally not the identity). -/
theorem C2_whole_mappings (p : WholeGeometryPartition) :
    (∀ idx : Int, p.cell_index idx = idx) ∧
    (∀ idx : Int, p.partition_cell_index idx = idx) ∧
    (∀ idx : Int, p.side_index idx = idx) ∧
    (∀ idx : Int, p.frontier_side_index idx = idx) ∧
    (∀ i : Nat, p.boundary_side_index i = p.geometry.boundary_side_index i) :=
  ⟨fun _ => rfl, fun _ => rfl, fun _ => rfl, fun _ => rfl, fun _ => rfl⟩

/-- C1: the code's upper-bound test is `cell_index > args.cell_end`, so the
global index `cell_end` itself is treated as in-range. At the concrete
Linear partition of the 4-cell chain into 2 ranks (rank 0: begin 0, end 2),
`partition_cell_index(2)` returns 2 — a non-NULL local index equal to
`cell_count()` — even though `_cell_inclusion_test` excludes cell 2, which
contradicts the specified "global ≥ end ⇒ NULL". -/
theorem C1_linear_upper_bound_off_by_one :
    (LinearGeometryPartition.ofRank chainGeometry 0 2).cell_begin = 0 ∧
    (LinearGeometryPartition.ofRank chainGeometry 0 2).cell_end = 2 ∧
    LinearGeometryPartition.partition_cell_index
      (LinearGeometryPartition.ofRank chainGeometry 0 2).cell_arg_value 2 = 2 ∧
    LinearGeometryPartition.partition_cell_index
      (LinearGeometryPartition.ofRank chainGeometry 0 2).cell_arg_value 2
      ≠ NULL_ELEMENT_INDEX ∧
    LinearGeometryPartition._cell_inclusion_test
      (LinearGeometryPartition.ofRank chainGeometry 0 2).cell_arg_value 2 = false := by
  decide

/-- C5: round-trip for Linear partitions — for every local index i with
0 ≤ i < cell_count(), `partition_cell_index(cell_index(i)) = i`. -/
theorem C5_linear_roundtrip (p : LinearGeometryPartition) (i : Int)
    (h0 : 0 ≤ i) (h1 : i < p.cell_count) :
    LinearGeometryPartition.partition_cell_index p.cell_arg_value
      (LinearGeometryPartition.cell_index p.cell_arg_value i) = i := by
  simp only [LinearGeometryPartition.cell_arg_value, LinearGeometryPartition.cell_index,
    LinearGeometryPartition.partition_cell_index, LinearGeometryPartition.cell_count] at *
  split_ifs with ha hb <;> omega

/-- C5 witness: the round-trip at rank 0 of 2 over the 4-cell chain, local
index 1. -/
theorem C5_witness :
    (0 : Int) ≤ 1 ∧
    (1 : Int) < (LinearGeometryPartition.ofRank chainGeometry 0 2).cell_count ∧
    LinearGeometryPartition.partition_cell_index
      (LinearGeometryPartition.ofRank chainGeometry 0 2).cell_arg_value
      (LinearGeometryPartition.cell_index
        (LinearGeometryPartition.ofRank chainGeometry 0 2).cell_arg_value 1) = 1 :=
  ⟨by decide, by decide,
    C5_linear_roundtrip (LinearGeometryPartition.ofRank chainGeometry 0 2) 1
      (by decide) (by decide)⟩

/-- The classification predicate used in concrete witnesses: cells 0 and 1
are in the partition (rank 0 of the spec's two-rank chain scenario). -/
def inclFirstTwo : Nat → Bool := fun c => decide (c < 2)

/-- C4: in the side-classification pass, for every side s within the
geometry, the partition-side mask slot is 1 iff the inner neighbor is
included, the frontier slot is 1 iff exactly one neighbor is included, and
the boundary slot is 1 iff the inner neighbor is included and the inner and
outer cell indices coincide. -/
theorem C4_side_classification (geo : Geometry) (incl : Nat → Bool) (s : Nat)
    (hs : s < geo.side_count) :
    ((partitionSideMask geo incl).getD s 0 = 1 ↔
      incl (geo.side_inner_cell_index s) = true) ∧
    ((frontierSideMask geo incl).getD s 0 = 1 ↔
      incl (geo.side_inner_cell_index s) ≠ incl (geo.side_outer_cell_index s)) ∧
    ((boundarySideMask geo incl).getD s 0 = 1 ↔
      incl (geo.side_inner_cell_index s) = true ∧
      geo.side_inner_cell_index s = geo.side_outer_cell_index s) := by
  unfold partitionSideMask frontierSideMask boundarySideMask
  rw [getD_map_range _ _ hs, getD_map_range _ _ hs, getD_map_range _ _ hs]
  refine ⟨?_, ?_, ?_⟩
  · split_ifs with h <;> simp [h]
  · split_ifs with h <;> simp_all
  · split_ifs with h1 h2 <;> simp_all

/-- C4 witness: side 2 of the 4-cell chain under the rank-0 inclusion
predicate (cells 0 and 1 owned): a frontier, non-boundary partition side. -/
theorem C4_witness :
    2 < chainGeometry.side_count ∧
    (((partitionSideMask chainGeometry inclFirstTwo).getD 2 0 = 1 ↔
       inclFirstTwo (chainGeometry.side_inner_cell_index 2) = true) ∧
     ((frontierSideMask chainGeometry inclFirstTwo).getD 2 0 = 1 ↔
       inclFirstTwo (chainGeometry.side_inner_cell_index 2)
         ≠ inclFirstTwo (chainGeometry.side_outer_cell_index 2)) ∧
     ((boundarySideMask chainGeometry inclFirstTwo).getD 2 0 = 1 ↔
       inclFirstTwo (chainGeometry.side_inner_cell_index 2) = true ∧
       chainGeometry.side_inner_cell_index 2 = chainGeometry.side_outer_cell_index 2)) :=
  ⟨by decide, C4_side_classification chainGeometry inclFirstTwo 2 (by decide)⟩

/-- C6: every global side index in the compacted boundary array also appears
in the compacted partition-side array, for any geometry and any inclusion
predicate fed to the shared classification engine. -/
theorem C6_boundary_subset_partition (geo : Geometry) (incl : Nat → Bool) (s : Nat)
    (hs : s ∈ CellBasedGeometryPartition.boundary_side_indices geo incl) :
    s ∈ CellBasedGeometryPartition.partition_side_indices geo incl := by
  unfold CellBasedGeometryPartition.boundary_side_indices at hs
  unfold CellBasedGeometryPartition.partition_side_indices
  rw [mem_maskedIndices] at hs ⊢
  obtain ⟨hlen, hne⟩ := hs
  have hs' : s < geo.side_count := by
    simpa [boundarySideMask] using hlen
  refine ⟨by simpa [partitionSideMask] using hs', ?_⟩
  unfold boundarySideMask at hne
  rw [getD_map_range _ _ hs'] at hne
  unfold partitionSideMask
  rw [getD_map_range _ _ hs']
  by_cases h : incl (geo.side_inner_cell_index s) = true
  · rw [if_pos h]; exact one_ne_zero
  · rw [if_neg h] at hne; exact absurd rfl hne

/-- C6 witness: on the 4-cell chain with rank-0 inclusion, side 0 is in the
boundary array, hence also in the partition-side array. -/
theorem C6_witness :
    0 ∈ CellBasedGeometryPartition.boundary_side_indices chainGeometry inclFirstTwo ∧
    0 ∈ CellBasedGeometryPartition.partition_side_indices chainGeometry inclFirstTwo :=
  ⟨by decide, C6_boundary_subset_partition chainGeometry inclFirstTwo 0 (by decide)⟩

/-- C7: an Explicit partition built from the all-ones mask over a
well-formed geometry has no frontier sides and owns every cell. -/
theorem C7_explicit_all_ones (geo : Geometry) (hwf : geo.WF) :
    (ExplicitGeometryPartition.mk geo
      (List.replicate geo.cell_count 1)).frontier_side_count = 0 ∧
    (ExplicitGeometryPartition.mk geo
      (List.replicate geo.cell_count 1)).cell_count = geo.cell_count := by
  have hincl : ∀ c, c < geo.cell_count →
      ExplicitGeometryPartition._cell_inclusion_test (List.replicate geo.cell_count 1) c
        = true := by
    intro c hc
    unfold ExplicitGeometryPartition._cell_inclusion_test
    rw [List.getD_eq_getElem _ _ (by simpa using hc)]
    simp
  constructor
  · unfold ExplicitGeometryPartition.frontier_side_count
      CellBasedGeometryPartition.frontier_side_indices
    dsimp only
    rw [maskedIndices_length, List.countP_eq_zero]
    intro a ha
    unfold frontierSideMask at ha
    rw [List.mem_map] at ha
    obtain ⟨s, hsr, rfl⟩ := ha
    rw [List.mem_range] at hsr
    have hin : geo.side_inner_cell_index s < geo.cell_count := by
      apply hwf.2.1
      unfold Geometry.side_inner_cell_index
      rw [List.getD_eq_getElem _ _ hsr]
      exact List.getElem_mem _
    have hout : geo.side_outer_cell_index s < geo.cell_count := by
      apply hwf.2.2
      unfold Geometry.side_outer_cell_index
      rw [List.getD_eq_getElem _ _ (by rw [hwf.1]; exact hsr)]
      exact List.getElem_mem _
    simp only [hincl _ hin, hincl _ hout]
    simp
  · show (maskedIndices (List.replicate geo.cell_count 1)).length = geo.cell_count
    exact maskedIndices_replicate_one_length _

/-- C7 witness: the all-ones Explicit partition of the 4-cell chain. -/
theorem C7_witness :
    chainGeometry.WF ∧
    ((ExplicitGeometryPartition.mk chainGeometry
       (List.replicate chainGeometry.cell_count 1)).frontier_side_count = 0 ∧
     (ExplicitGeometryPartition.mk chainGeometry
       (List.replicate chainGeometry.cell_count 1)).cell_count
       = chainGeometry.cell_count) :=
  ⟨by decide, C7_explicit_all_ones chainGeometry (by decide)⟩

/-- C10: round-trip for Explicit partitions — for every local index i below
`cell_count()`, looking the mapped global cell index back up in the inverse
array recovers i. -/
theorem C10_explicit_roundtrip (p : ExplicitGeometryPartition) (i : Nat)
    (h : i < p.cell_count) :
    ExplicitGeometryPartition.partition_cell_index p.cell_arg_value
      (ExplicitGeometryPartition.cell_index p.cell_arg_value i) = (i : Int) := by
  have h' : i < (maskedIndices p.cell_mask).length := h
  obtain ⟨h1, h2⟩ := maskedIndices_getD_spec p.cell_mask i h'
  have hlt : (maskedIndices p.cell_mask).getD i 0 < p.cell_mask.length :=
    lt_length_of_getD_ne _ _ h1
  show (maskedOffsetsList p.cell_mask).getD
    ((maskedIndices p.cell_mask).getD i 0) (-1) = (i : Int)
  rw [maskedOffsetsList_getD _ _ hlt]
  unfold maskedOffset
  rw [if_pos h1, h2]

/-- C10 witness: the chain geometry with mask selecting cells 0 and 1,
local index 1. -/
theorem C10_witness :
    1 < (ExplicitGeometryPartition.mk chainGeometry [1, 1, 0, 0]).cell_count ∧
    ExplicitGeometryPartition.partition_cell_index
      (ExplicitGeometryPartition.mk chainGeometry [1, 1, 0, 0]).cell_arg_value
      (ExplicitGeometryPartition.cell_index
        (ExplicitGeometryPartition.mk chainGeometry [1, 1, 0, 0]).cell_arg_value 1)
      = (1 : Int) :=
  ⟨by decide, C10_explicit_roundtrip (ExplicitGeometryPartition.mk chainGeometry [1, 1, 0, 0])
    1 (by decide)⟩

/-- C3 counterexample: with 1 cell and 3 ranks, rank 2 has
cell_begin = 2 ≥ C = 1 but `cell_count()` evaluates to -1, not 0 (its range
is [2, 1)). -/
theorem C3_counterexample :
    1 ≤ linearCellBegin 1 3 2 ∧
    (LinearGeometryPartition.ofRank ⟨1, [], [], []⟩ 2 3).cell_count ≠ 0 := by
  decide

/-- C3 (amended): for every geometry and partition count P ≥ 1, the Linear
ranges lie inside [0, C), every global cell index below C lies in exactly
one rank's range (no gaps, no overlaps), and every rank whose cell_begin is
at least C owns no cells — its range is empty and `cell_count()` is ≤ 0
(it can be negative, not necessarily 0, when cell_begin exceeds C). -/
theorem C3_linear_ranges_partition (geo : Geometry) (P : Nat) (hP : 1 ≤ P) :
    (∀ r, (LinearGeometryPartition.ofRank geo r P).cell_end ≤ geo.cell_count) ∧
    (∀ g, g < geo.cell_count → ∃! r, r < P ∧
        (LinearGeometryPartition.ofRank geo r P).cell_begin ≤ g ∧
        g < (LinearGeometryPartition.ofRank geo r P).cell_end) ∧
    (∀ r, geo.cell_count ≤ (LinearGeometryPartition.ofRank geo r P).cell_begin →
        (LinearGeometryPartition.ofRank geo r P).cell_count ≤ 0) := by
  simp only [LinearGeometryPartition.ofRank, LinearGeometryPartition.cell_count,
    linearCellBegin, linearCellEnd]
  set C := geo.cell_count with hC
  set chunk := cellsPerPartition C P with hchunkdef
  refine ⟨fun r => min_le_right _ _, fun g hg => ?_, fun r hr => ?_⟩
  · have hchunk1 : 1 ≤ chunk := by
      rw [hchunkdef]; unfold cellsPerPartition
      rw [Nat.one_le_div_iff hP]; omega
    have hPchunk : C ≤ P * chunk := by
      rw [hchunkdef]; unfold cellsPerPartition
      have h1 := Nat.div_add_mod (C + P - 1) P
      have h2 : (C + P - 1) % P < P := Nat.mod_lt _ (by omega)
      omega
    refine ⟨g / chunk, ⟨?_, ?_, ?_⟩, ?_⟩
    · rw [Nat.div_lt_iff_lt_mul (by omega)]
      omega
    · exact Nat.mul_div_le g chunk
    · apply lt_min
      · have h1 := Nat.div_add_mod g chunk
        have h2 : g % chunk < chunk := Nat.mod_lt _ (by omega)
        omega
      · exact hg
    · rintro y ⟨hy1, hy2, hy3⟩
      have hy3' : g < chunk * y + chunk := lt_of_lt_of_le hy3 (min_le_left _ _)
      have h1' : y * chunk ≤ g := by rw [Nat.mul_comm]; exact hy2
      have h2' : g < (y + 1) * chunk := by rw [Nat.succ_mul, Nat.mul_comm y chunk]; exact hy3'
      exact (Nat.div_eq_of_lt_le h1' h2').symm
  · have h1 : min (chunk * r + chunk) C ≤ C := min_le_right _ _
    omega

/-- C3 witness: the 4-cell chain split into 2 ranks. -/
theorem C3_witness :
    1 ≤ 2 ∧
    ((∀ r, (LinearGeometryPartition.ofRank chainGeometry r 2).cell_end
        ≤ chainGeometry.cell_count) ∧
     (∀ g, g < chainGeometry.cell_count → ∃! r, r < 2 ∧
        (LinearGeometryPartition.ofRank chainGeometry r 2).cell_begin ≤ g ∧
        g < (LinearGeometryPartition.ofRank chainGeometry r 2).cell_end) ∧
     (∀ r, chainGeometry.cell_count
          ≤ (LinearGeometryPartition.ofRank chainGeometry r 2).cell_begin →
        (LinearGeometryPartition.ofRank chainGeometry r 2).cell_count ≤ 0)) :=
  ⟨by decide, C3_linear_ranges_partition chainGeometry 2 (by decide)⟩
